import Mathlib

/-!
# Verification of the `stl_splitter` program

Shallow embedding of `src/stl_splitter/src/main.rs`.  32-bit floats are
modelled as either NaN or an exact rational value; the comparison,
min/max and arithmetic operations below follow IEEE-754 semantics for
NaN (every ordered comparison involving NaN is false, `min`/`max` ignore
a NaN argument as Rust's `f32::min`/`f32::max` do, arithmetic propagates
NaN).
-/

set_option autoImplicit false

/-- Model of an `f32` value: NaN, or an exact numeric value. -/
inductive F32 where
  | nan : F32
  | val : ℚ → F32
deriving DecidableEq

namespace F32

/-- Comparison `a >= b` on `f32`: false whenever either side is NaN. -/
def fge : F32 → F32 → Bool
  | .val a, .val b => decide (b ≤ a)
  | _, _ => false

/-- Comparison `a <= b` on `f32`: false whenever either side is NaN. -/
def fle : F32 → F32 → Bool
  | .val a, .val b => decide (a ≤ b)
  | _, _ => false

/-- Comparison `a < b` on `f32`: false whenever either side is NaN. -/
def flt : F32 → F32 → Bool
  | .val a, .val b => decide (a < b)
  | _, _ => false

/-- Rust `f32::min`: if one argument is NaN, the other is returned. -/
def fmin : F32 → F32 → F32
  | .val a, .val b => .val (min a b)
  | .nan, b => b
  | a, .nan => a

/-- Rust `f32::max`: if one argument is NaN, the other is returned. -/
def fmax : F32 → F32 → F32
  | .val a, .val b => .val (max a b)
  | .nan, b => b
  | a, .nan => a

/-- Addition on `f32`; NaN propagates. -/
def fadd : F32 → F32 → F32
  | .val a, .val b => .val (a + b)
  | _, _ => .nan

/-- Division of an `f32` by 2; NaN propagates. -/
def fdiv2 : F32 → F32
  | .val a => .val (a / 2)
  | .nan => .nan

/-- Is this a numeric (non-NaN) value? -/
def isNum : F32 → Bool
  | .val _ => true
  | .nan => false

/-- The numeric value (junk 0 on NaN). -/
def q : F32 → ℚ
  | .val a => a
  | .nan => 0

end F32

/-- A 3-component vector of `f32`, as `stl_io::Vector` / `[f32; 3]`. -/
structure Vec3 where
  x : F32
  y : F32
  z : F32
deriving DecidableEq

/-- Component access `v[i]` for `i in 0..3`. -/
def Vec3.get (v : Vec3) : Fin 3 → F32
  | 0 => v.x
  | 1 => v.y
  | 2 => v.z

/-- All three components are numeric (non-NaN). -/
def Vec3.isNumV (v : Vec3) : Bool :=
  v.x.isNum && v.y.isNum && v.z.isNum

/-- The `stl_io::Triangle` record: a normal and three vertices. -/
structure Triangle where
  normal : Vec3
  v0 : Vec3
  v1 : Vec3
  v2 : Vec3
deriving DecidableEq

/-- The three vertices in order, as `triangle.vertices.iter()`. -/
def Triangle.vertexList (t : Triangle) : List Vec3 :=
  [t.v0, t.v1, t.v2]

/-- The check `triangle.vertices.iter().all(|v| v[2] >= z_height)`. -/
def Triangle.allAbove (t : Triangle) (z_height : F32) : Bool :=
  t.vertexList.all (fun v => v.z.fge z_height)

/-- The check `triangle.vertices.iter().all(|v| v[2] <= z_height)`. -/
def Triangle.allBelow (t : Triangle) (z_height : F32) : Bool :=
  t.vertexList.all (fun v => v.z.fle z_height)

/-- The `struct Mesh { triangles: Vec<Triangle> }` of the program. -/
structure Mesh where
  triangles : List Triangle
deriving DecidableEq

/-- All coordinates of all vertices of the mesh are numeric (non-NaN). -/
def Mesh.noNaN (m : Mesh) : Bool :=
  m.triangles.all (fun t => t.vertexList.all Vec3.isNumV)

/-- The loop body of `Mesh::split`: walk the triangle list, pushing each
triangle onto `upper` when all vertex z-coordinates are `>= z_height`,
else onto `lower` when they are all `<= z_height`, else dropping it. -/
def splitGo (z_height : F32) : List Triangle → List Triangle × List Triangle
  | [] => ([], [])
  | t :: ts =>
    let r := splitGo z_height ts
    if t.allAbove z_height then (t :: r.1, r.2)
    else if t.allBelow z_height then (r.1, t :: r.2)
    else r

/-- The method `Mesh::split`, returning `(upper, lower)`. -/
def Mesh.split (m : Mesh) (z_height : F32) : List Triangle × List Triangle :=
  splitGo z_height m.triangles

/-- Componentwise `min_array[i] = min_array[i].min(vertex[i])`. -/
def Vec3.vmin (a b : Vec3) : Vec3 :=
  ⟨a.x.fmin b.x, a.y.fmin b.y, a.z.fmin b.z⟩

/-- Componentwise `max_array[i] = max_array[i].max(vertex[i])`. -/
def Vec3.vmax (a b : Vec3) : Vec3 :=
  ⟨a.x.fmax b.x, a.y.fmax b.y, a.z.fmax b.z⟩

/-- The vertices of all triangles of the mesh, in iteration order of the
nested loops of `Mesh::get_dimensions`. -/
def Mesh.allVertices (m : Mesh) : List Vec3 :=
  m.triangles.flatMap Triangle.vertexList

/-- The double loop of `Mesh::get_dimensions`: update the running
`(min_array, max_array)` pair with every vertex. -/
def bboxFold (vs : List Vec3) (init : Vec3 × Vec3) : Vec3 × Vec3 :=
  vs.foldl (fun p v => (p.1.vmin v, p.2.vmax v)) init

/-- The method `Mesh::get_dimensions`.  The Rust code indexes `self.triangles[0]`,
which panics on an empty mesh; the embedding returns `none` there and
`some (min_array, max_array)` otherwise, with both arrays initialised
from the first vertex of the first triangle. -/
def Mesh.get_dimensions? (m : Mesh) : Option (Vec3 × Vec3) :=
  match m.triangles with
  | [] => none
  | t :: _ => some (bboxFold m.allVertices (t.v0, t.v0))

/-- The `stl_io::IndexedMesh` as the program uses it: the program reads
only its `vertices` field, taking it as the flat ordered vertex list. -/
structure IndexedMesh where
  vertices : List Vec3
deriving DecidableEq

/-- The spec's error taxonomy for the loader. -/
inductive LoadError where
  | malformedInput
  | emptyMesh
deriving DecidableEq

/-- The grouping `chunks_exact(3)`: consecutive chunks of exactly 3 vertices, any
remainder shorter than 3 dropped. -/
def chunks3 : List Vec3 → List (Vec3 × Vec3 × Vec3)
  | a :: b :: c :: rest => (a, b, c) :: chunks3 rest
  | _ => []

/-- The fixed placeholder normal `Vector([0.0, 0.0, 1.0])`. -/
def defaultNormal : Vec3 :=
  ⟨.val 0, .val 0, .val 1⟩

/-- The body of `Mesh::load` after the call to `stl_io::read_stl`: its
argument is the parse result (`Err` for an unreadable/corrupt file).
Checks divisibility of the vertex count by 3, groups vertices in chunks
of 3 into triangles with the placeholder normal, and rejects an empty
triangle list. -/
def Mesh.loadFromParse (r : Except Unit IndexedMesh) : Except LoadError Mesh :=
  match r with
  | .error _ => .error .malformedInput
  | .ok mesh =>
    if mesh.vertices.length % 3 ≠ 0 then .error .malformedInput
    else
      let triangles := (chunks3 mesh.vertices).map
        (fun c => ⟨defaultNormal, c.1, c.2.1, c.2.2⟩)
      if triangles.isEmpty then .error .emptyMesh
      else .ok ⟨triangles⟩

/-- An STL file on disk, abstracted to the facet records it stores. -/
structure StlFile where
  facets : List Triangle
deriving DecidableEq

/-- Modelled from the spec: `stl_io::write_stl` (called by `Mesh::save`)
is not part of this repository; per the spec the writer serialises the
given triangle list, one facet record (normal plus three vertices) per
triangle, to the standard STL format. -/
def write_stl (ts : List Triangle) : StlFile :=
  ⟨ts⟩

/-- Modelled from the spec: `stl_io::read_stl` (called by `Mesh::load`)
is not part of this repository; per the spec the parse decodes the
file's vertices into a flat ordered list, three per facet record in
facet order. -/
def read_stl (f : StlFile) : Except Unit IndexedMesh :=
  .ok ⟨f.facets.flatMap Triangle.vertexList⟩

/-- The cutting height computed by `main`:
`let z_split = (max[2] + min[2]) / 2.0;`, available only when
`get_dimensions` succeeds. -/
def mainZSplit (m : Mesh) : Option F32 :=
  m.get_dimensions?.map (fun p => (p.2.z.fadd p.1.z).fdiv2)

/-- The split performed by `main`: `mesh.split(z_split)`. -/
def mainSplit (m : Mesh) : Option (List Triangle × List Triangle) :=
  (mainZSplit m).map (fun zs => m.split zs)

/-- The spec's notion of a straddling triangle: some vertex strictly
above the cutting plane and some vertex strictly below it. -/
def Triangle.straddles (t : Triangle) (z : F32) : Bool :=
  (t.vertexList.any (fun v => z.flt v.z)) && (t.vertexList.any (fun v => v.z.flt z))

/-- Shift a vector by a constant offset, componentwise. -/
def Vec3.translate (v d : Vec3) : Vec3 :=
  ⟨v.x.fadd d.x, v.y.fadd d.y, v.z.fadd d.z⟩

/-- Shift every vertex of a triangle by a constant offset. -/
def Triangle.translate (t : Triangle) (d : Vec3) : Triangle :=
  ⟨t.normal, t.v0.translate d, t.v1.translate d, t.v2.translate d⟩

/-- Shift every vertex of a mesh by a constant offset. -/
def Mesh.translate (m : Mesh) (d : Vec3) : Mesh :=
  ⟨m.triangles.map (fun t => t.translate d)⟩

/-! ### Lemmas about `Mesh::split` -/

theorem F32.fge_nan_left (z : F32) : F32.fge .nan z = false := by
  cases z <;> rfl

theorem F32.fle_nan_left (z : F32) : F32.fle .nan z = false := by
  cases z <;> rfl

theorem splitGo_eq_filter (z : F32) (ts : List Triangle) :
    splitGo z ts = (ts.filter (fun t => t.allAbove z),
      ts.filter (fun t => !(t.allAbove z) && t.allBelow z)) := by
  induction ts with
  | nil => rfl
  | cons a ts ih =>
    cases ha : a.allAbove z <;> cases hb : a.allBelow z <;>
      simp [splitGo, ih, List.filter_cons, ha, hb]

theorem mem_split_upper (m : Mesh) (z : F32) (t : Triangle) :
    t ∈ (m.split z).1 ↔ t ∈ m.triangles ∧ t.allAbove z = true := by
  simp [Mesh.split, splitGo_eq_filter, List.mem_filter]

theorem mem_split_lower (m : Mesh) (z : F32) (t : Triangle) :
    t ∈ (m.split z).2 ↔
      t ∈ m.triangles ∧ t.allAbove z = false ∧ t.allBelow z = true := by
  simp [Mesh.split, splitGo_eq_filter, List.mem_filter, Bool.and_eq_true,
    Bool.not_eq_true', and_assoc]

theorem split_upper_sublist (m : Mesh) (z : F32) :
    (m.split z).1.Sublist m.triangles := by
  rw [Mesh.split, splitGo_eq_filter]
  exact List.filter_sublist m.triangles

theorem split_lower_sublist (m : Mesh) (z : F32) :
    (m.split z).2.Sublist m.triangles := by
  rw [Mesh.split, splitGo_eq_filter]
  exact List.filter_sublist m.triangles

theorem split_length_partition (z : F32) (ts : List Triangle) :
    (splitGo z ts).1.length + (splitGo z ts).2.length
      + (ts.filter (fun t => !(t.allAbove z) && !(t.allBelow z))).length
      = ts.length := by
  induction ts with
  | nil => rfl
  | cons a ts ih =>
    cases ha : a.allAbove z <;> cases hb : a.allBelow z <;>
      simp [splitGo, List.filter_cons, ha, hb] <;> omega

/-- C1:  For every mesh and cutting height `z`, `Mesh::split`
classifies each triangle exactly by the rule of the spec: it lands in
`upper` precisely when all three of its vertices have z-coordinate
`>= z`; it lands in `lower` precisely when not all vertices are `>= z`
but all are `<= z`; in the remaining case it is in neither output. -/
theorem split_classification_c1 (m : Mesh) (z : F32) (t : Triangle) :
    (t ∈ (m.split z).1 ↔ t ∈ m.triangles ∧ t.allAbove z = true) ∧
    (t ∈ (m.split z).2 ↔
      t ∈ m.triangles ∧ t.allAbove z = false ∧ t.allBelow z = true) ∧
    (t.allAbove z = false → t.allBelow z = false →
      t ∉ (m.split z).1 ∧ t ∉ (m.split z).2) := by
  refine ⟨mem_split_upper m z t, mem_split_lower m z t, fun ha hb => ⟨?_, ?_⟩⟩
  · intro hmem
    exact absurd ((mem_split_upper m z t).mp hmem).2 (by rw [ha]; simp)
  · intro hmem
    exact absurd ((mem_split_lower m z t).mp hmem).2.2 (by rw [hb]; simp)

/-- Witness for C1: the classification characterisation evaluated on a
concrete one-triangle mesh at cutting height 1. -/
theorem split_classification_c1_witness :
    let t : Triangle := ⟨defaultNormal, ⟨.val 0, .val 0, .val 2⟩,
      ⟨.val 1, .val 0, .val 3⟩, ⟨.val 0, .val 1, .val 4⟩⟩
    let m : Mesh := ⟨[t]⟩
    (t ∈ (m.split (.val 1)).1 ↔
      t ∈ m.triangles ∧ t.allAbove (.val 1) = true) ∧
    (t ∈ (m.split (.val 1)).2 ↔
      t ∈ m.triangles ∧ t.allAbove (.val 1) = false ∧
        t.allBelow (.val 1) = true) ∧
    (t.allAbove (.val 1) = false → t.allBelow (.val 1) = false →
      t ∉ (m.split (.val 1)).1 ∧ t ∉ (m.split (.val 1)).2) := by
  exact split_classification_c1 _ _ _

/-- C7:  A triangle whose three vertices all have z-coordinate
exactly equal to the (numeric) cutting height is classified into
`upper` and never into `lower`, the `>=` check being evaluated first. -/
theorem split_on_plane_upper_c7 (m : Mesh) (qz : ℚ) (t : Triangle)
    (ht : t ∈ m.triangles)
    (hz : ∀ v ∈ t.vertexList, v.z = F32.val qz) :
    t ∈ (m.split (F32.val qz)).1 ∧ t ∉ (m.split (F32.val qz)).2 := by
  have ha : t.allAbove (F32.val qz) = true := by
    rw [Triangle.allAbove, List.all_eq_true]
    intro v hv
    rw [hz v hv]
    simp [F32.fge]
  refine ⟨(mem_split_upper m _ t).mpr ⟨ht, ha⟩, fun hmem => ?_⟩
  have := ((mem_split_lower m _ t).mp hmem).2.1
  rw [ha] at this
  cases this

/-- C9: the method `Mesh::split` is total: it imposes no non-emptiness
precondition (unlike `Mesh::get_dimensions`, which has none to give on
an empty mesh), and on an empty triangle list it returns two empty
lists. -/
theorem split_total_on_empty_c9 (z : F32) :
    (Mesh.mk []).split z = ([], []) ∧ (Mesh.mk []).get_dimensions? = none :=
  ⟨rfl, rfl⟩

/-- C10:  A triangle with a NaN z-coordinate on at least one vertex
is placed in neither output list: both the all-`>=` and the all-`<=`
comparisons are false for NaN. -/
theorem split_nan_dropped_c10 (m : Mesh) (z : F32) (t : Triangle)
    (ht : t ∈ m.triangles)
    (hnan : ∃ v ∈ t.vertexList, v.z = F32.nan) :
    t ∉ (m.split z).1 ∧ t ∉ (m.split z).2 := by
  obtain ⟨v, hv, hvz⟩ := hnan
  have ha : t.allAbove z = false := by
    cases hall : t.allAbove z with
    | false => rfl
    | true =>
      have := (List.all_eq_true.mp hall) v hv
      rw [hvz, F32.fge_nan_left] at this
      cases this
  have hb : t.allBelow z = false := by
    cases hall : t.allBelow z with
    | false => rfl
    | true =>
      have := (List.all_eq_true.mp hall) v hv
      rw [hvz, F32.fle_nan_left] at this
      cases this
  constructor
  · intro hmem
    have := ((mem_split_upper m z t).mp hmem).2
    rw [ha] at this
    cases this
  · intro hmem
    have := ((mem_split_lower m z t).mp hmem).2.2
    rw [hb] at this
    cases this

/-- Witness for C10: a triangle with one NaN vertex, mixed otherwise,
lands in neither list at cutting height 0. -/
theorem split_nan_dropped_c10_witness :
    let t : Triangle := ⟨defaultNormal, ⟨.val 0, .val 0, .nan⟩,
      ⟨.val 1, .val 0, .val 1⟩, ⟨.val 0, .val 1, .val 1⟩⟩
    let m : Mesh := ⟨[t]⟩
    t ∈ m.triangles ∧ (∃ v ∈ t.vertexList, v.z = F32.nan) ∧
      t ∉ (m.split (.val 0)).1 ∧ t ∉ (m.split (.val 0)).2 := by
  refine ⟨by decide, by decide, split_nan_dropped_c10 _ _ _ (by decide) (by decide)⟩

/-- Witness for C7: a triangle lying entirely in the cutting plane
`z = 2` goes to `upper`, not `lower`. -/
theorem split_on_plane_upper_c7_witness :
    let t : Triangle := ⟨defaultNormal, ⟨.val 0, .val 0, .val 2⟩,
      ⟨.val 1, .val 0, .val 2⟩, ⟨.val 0, .val 1, .val 2⟩⟩
    let m : Mesh := ⟨[t]⟩
    t ∈ m.triangles ∧ (∀ v ∈ t.vertexList, v.z = F32.val 2) ∧
      t ∈ (m.split (F32.val 2)).1 ∧ t ∉ (m.split (F32.val 2)).2 := by
  refine ⟨by decide, by decide, split_on_plane_upper_c7 _ 2 _ (by decide) (by decide)⟩

theorem isNumV_z_val (v : Vec3) (h : v.isNumV = true) : ∃ r : ℚ, v.z = .val r := by
  rcases hz : v.z with _ | r
  · rw [Vec3.isNumV, hz] at h
    simp [F32.isNum] at h
  · exact ⟨r, rfl⟩

theorem straddles_spec (t : Triangle) (qz : ℚ)
    (h : t.vertexList.all Vec3.isNumV = true) :
    t.straddles (.val qz)
      = (!(t.allAbove (.val qz)) && !(t.allBelow (.val qz))) := by
  simp only [Triangle.vertexList, List.all_cons, List.all_nil, Bool.and_true,
    Bool.and_eq_true] at h
  obtain ⟨r0, e0⟩ := isNumV_z_val t.v0 h.1
  obtain ⟨r1, e1⟩ := isNumV_z_val t.v1 h.2.1
  obtain ⟨r2, e2⟩ := isNumV_z_val t.v2 h.2.2
  simp only [Triangle.straddles, Triangle.allAbove, Triangle.allBelow,
    Triangle.vertexList, List.any_cons, List.any_nil, List.all_cons,
    List.all_nil, e0, e1, e2, F32.fge, F32.fle, F32.flt, Bool.or_false,
    Bool.and_true]
  rw [Bool.eq_iff_iff]
  simp only [Bool.and_eq_true, Bool.or_eq_true, Bool.not_eq_true',
    Bool.and_eq_false_iff, decide_eq_true_eq, decide_eq_false_iff_not,
    not_le]
  tauto

/-- C2:  For every mesh with at least one triangle, NaN-free, and
every (numeric) cutting height, `upper` and `lower` are disjoint
subsequences of the source triangle list (source order preserved, no
duplication, no triangle in both), and their lengths together with the
number of straddling (dropped) triangles add up to the size of the
mesh. -/
theorem split_partition_c2 (m : Mesh) (qz : ℚ)
    (h1 : 1 ≤ m.triangles.length) (h2 : m.noNaN = true) :
    (m.split (.val qz)).1.Sublist m.triangles ∧
    (m.split (.val qz)).2.Sublist m.triangles ∧
    (∀ t, t ∈ (m.split (.val qz)).1 → t ∉ (m.split (.val qz)).2) ∧
    (m.split (.val qz)).1.length + (m.split (.val qz)).2.length
      + (m.triangles.filter (fun t => t.straddles (.val qz))).length
      = m.triangles.length := by
  have hfilter : m.triangles.filter (fun t => t.straddles (.val qz))
      = m.triangles.filter
          (fun t => !(t.allAbove (.val qz)) && !(t.allBelow (.val qz))) := by
    apply List.filter_congr
    intro t ht
    rw [Mesh.noNaN, List.all_eq_true] at h2
    exact straddles_spec t qz (h2 t ht)
  refine ⟨split_upper_sublist m _, split_lower_sublist m _, ?_, ?_⟩
  · intro t hu hl
    have hau := ((mem_split_upper m _ t).mp hu).2
    have hal := ((mem_split_lower m _ t).mp hl).2.1
    rw [hau] at hal
    cases hal
  · rw [hfilter]
    exact split_length_partition (.val qz) m.triangles

/-- Witness for C2: a two-triangle mesh, one above, one straddling the
plane at height 1. -/
theorem split_partition_c2_witness :
    let t1 : Triangle := ⟨defaultNormal, ⟨.val 0, .val 0, .val 1⟩,
      ⟨.val 1, .val 0, .val 2⟩, ⟨.val 0, .val 1, .val 3⟩⟩
    let t2 : Triangle := ⟨defaultNormal, ⟨.val 0, .val 0, .val 0⟩,
      ⟨.val 1, .val 0, .val 2⟩, ⟨.val 0, .val 1, .val 0⟩⟩
    let m : Mesh := ⟨[t1, t2]⟩
    1 ≤ m.triangles.length ∧ m.noNaN = true ∧
    ((m.split (.val 1)).1.Sublist m.triangles ∧
    (m.split (.val 1)).2.Sublist m.triangles ∧
    (∀ t, t ∈ (m.split (.val 1)).1 → t ∉ (m.split (.val 1)).2) ∧
    (m.split (.val 1)).1.length + (m.split (.val 1)).2.length
      + (m.triangles.filter (fun t => t.straddles (.val 1))).length
      = m.triangles.length) := by
  exact ⟨by decide, by decide, split_partition_c2 _ 1 (by decide) (by decide)⟩

/-! ### Lemmas about `Mesh::get_dimensions` -/

theorem F32.fmin_isNum (a b : F32) (ha : a.isNum = true) (hb : b.isNum = true) :
    (a.fmin b).isNum = true := by
  cases a <;> cases b <;> simp_all [F32.fmin, F32.isNum]

theorem F32.fmax_isNum (a b : F32) (ha : a.isNum = true) (hb : b.isNum = true) :
    (a.fmax b).isNum = true := by
  cases a <;> cases b <;> simp_all [F32.fmax, F32.isNum]

theorem F32.fmin_q (a b : F32) (ha : a.isNum = true) (hb : b.isNum = true) :
    (a.fmin b).q = min a.q b.q := by
  cases a <;> cases b <;> simp_all [F32.fmin, F32.isNum, F32.q]

theorem F32.fmax_q (a b : F32) (ha : a.isNum = true) (hb : b.isNum = true) :
    (a.fmax b).q = max a.q b.q := by
  cases a <;> cases b <;> simp_all [F32.fmax, F32.isNum, F32.q]

theorem F32.fmin_eq_or (a b : F32) (ha : a.isNum = true) (hb : b.isNum = true) :
    a.fmin b = a ∨ a.fmin b = b := by
  cases a with
  | nan => cases ha
  | val p =>
    cases b with
    | nan => cases hb
    | val r =>
      rcases min_choice p r with h | h
      · left
        simp [F32.fmin, h]
      · right
        simp [F32.fmin, h]

theorem F32.fmax_eq_or (a b : F32) (ha : a.isNum = true) (hb : b.isNum = true) :
    a.fmax b = a ∨ a.fmax b = b := by
  cases a with
  | nan => cases ha
  | val p =>
    cases b with
    | nan => cases hb
    | val r =>
      rcases max_choice p r with h | h
      · left
        simp [F32.fmax, h]
      · right
        simp [F32.fmax, h]

theorem foldl_fmin_spec (l : List F32) (a : F32) (ha : a.isNum = true)
    (hl : ∀ x ∈ l, x.isNum = true) :
    (l.foldl F32.fmin a = a ∨ l.foldl F32.fmin a ∈ l) ∧
    (l.foldl F32.fmin a).isNum = true ∧
    (l.foldl F32.fmin a).q ≤ a.q ∧
    (∀ x ∈ l, (l.foldl F32.fmin a).q ≤ x.q) := by
  induction l generalizing a with
  | nil => simp [ha]
  | cons x l ih =>
    have hx : x.isNum = true := hl x (List.mem_cons_self x l)
    have hl' : ∀ y ∈ l, y.isNum = true :=
      fun y hy => hl y (List.mem_cons_of_mem _ hy)
    have hax : (a.fmin x).isNum = true := F32.fmin_isNum a x ha hx
    obtain ⟨hmem, hnum, hle, hall⟩ := ih (a.fmin x) hax hl'
    simp only [List.foldl_cons]
    refine ⟨?_, hnum, ?_, ?_⟩
    · rcases hmem with h | h
      · rcases F32.fmin_eq_or a x ha hx with h2 | h2
        · exact Or.inl (h.trans h2)
        · exact Or.inr (by rw [h, h2]; exact List.mem_cons_self x l)
      · exact Or.inr (List.mem_cons_of_mem _ h)
    · refine le_trans hle ?_
      rw [F32.fmin_q a x ha hx]
      exact min_le_left _ _
    · intro y hy
      rcases List.mem_cons.mp hy with rfl | hy'
      · refine le_trans hle ?_
        rw [F32.fmin_q a y ha hx]
        exact min_le_right _ _
      · exact hall y hy'

theorem foldl_fmax_spec (l : List F32) (a : F32) (ha : a.isNum = true)
    (hl : ∀ x ∈ l, x.isNum = true) :
    (l.foldl F32.fmax a = a ∨ l.foldl F32.fmax a ∈ l) ∧
    (l.foldl F32.fmax a).isNum = true ∧
    a.q ≤ (l.foldl F32.fmax a).q ∧
    (∀ x ∈ l, x.q ≤ (l.foldl F32.fmax a).q) := by
  induction l generalizing a with
  | nil => simp [ha]
  | cons x l ih =>
    have hx : x.isNum = true := hl x (List.mem_cons_self x l)
    have hl' : ∀ y ∈ l, y.isNum = true :=
      fun y hy => hl y (List.mem_cons_of_mem _ hy)
    have hax : (a.fmax x).isNum = true := F32.fmax_isNum a x ha hx
    obtain ⟨hmem, hnum, hle, hall⟩ := ih (a.fmax x) hax hl'
    simp only [List.foldl_cons]
    refine ⟨?_, hnum, ?_, ?_⟩
    · rcases hmem with h | h
      · rcases F32.fmax_eq_or a x ha hx with h2 | h2
        · exact Or.inl (h.trans h2)
        · exact Or.inr (by rw [h, h2]; exact List.mem_cons_self x l)
      · exact Or.inr (List.mem_cons_of_mem _ h)
    · refine le_trans ?_ hle
      rw [F32.fmax_q a x ha hx]
      exact le_max_left _ _
    · intro y hy
      rcases List.mem_cons.mp hy with rfl | hy'
      · refine le_trans ?_ hle
        rw [F32.fmax_q a y ha hx]
        exact le_max_right _ _
      · exact hall y hy'

theorem vmin_get (a b : Vec3) (i : Fin 3) :
    (a.vmin b).get i = (a.get i).fmin (b.get i) := by
  fin_cases i <;> rfl

theorem vmax_get (a b : Vec3) (i : Fin 3) :
    (a.vmax b).get i = (a.get i).fmax (b.get i) := by
  fin_cases i <;> rfl

theorem bboxFold_cons (v : Vec3) (vs : List Vec3) (init : Vec3 × Vec3) :
    bboxFold (v :: vs) init = bboxFold vs (init.1.vmin v, init.2.vmax v) := rfl

theorem bboxFold_fst_get (vs : List Vec3) (init : Vec3 × Vec3) (i : Fin 3) :
    ((bboxFold vs init).1).get i
      = (vs.map (fun v => v.get i)).foldl F32.fmin ((init.1).get i) := by
  induction vs generalizing init with
  | nil => rfl
  | cons v vs ih =>
    rw [bboxFold_cons, ih, List.map_cons, List.foldl_cons, vmin_get]

theorem bboxFold_snd_get (vs : List Vec3) (init : Vec3 × Vec3) (i : Fin 3) :
    ((bboxFold vs init).2).get i
      = (vs.map (fun v => v.get i)).foldl F32.fmax ((init.2).get i) := by
  induction vs generalizing init with
  | nil => rfl
  | cons v vs ih =>
    rw [bboxFold_cons, ih, List.map_cons, List.foldl_cons, vmax_get]

theorem noNaN_get (m : Mesh) (h : m.noNaN = true) :
    ∀ v ∈ m.allVertices, ∀ i : Fin 3, (v.get i).isNum = true := by
  intro v hv i
  rw [Mesh.noNaN, List.all_eq_true] at h
  rw [Mesh.allVertices, List.mem_flatMap] at hv
  obtain ⟨t, ht, hvt⟩ := hv
  have hnum := List.all_eq_true.mp (h t ht) v hvt
  rw [Vec3.isNumV, Bool.and_eq_true, Bool.and_eq_true] at hnum
  fin_cases i
  · exact hnum.1.1
  · exact hnum.1.2
  · exact hnum.2

/-- C5:  For every non-empty NaN-free mesh, `Mesh::get_dimensions`
returns `(min, max)` where each component `i` of `min` (resp. `max`) is
attained by some vertex of the mesh and is a lower (resp. upper) bound
on component `i` over all vertices of all triangles: it is the
componentwise minimum (resp. maximum). -/
theorem get_dimensions_minmax_c5 (m : Mesh)
    (h1 : m.triangles ≠ []) (h2 : m.noNaN = true) :
    ∃ mn mx, m.get_dimensions? = some (mn, mx) ∧
      ∀ i : Fin 3,
        (mn.get i ∈ m.allVertices.map (fun v => v.get i) ∧
          ∀ v ∈ m.allVertices, (mn.get i).q ≤ (v.get i).q) ∧
        (mx.get i ∈ m.allVertices.map (fun v => v.get i) ∧
          ∀ v ∈ m.allVertices, (v.get i).q ≤ (mx.get i).q) := by
  obtain ⟨ts⟩ := m
  cases ts with
  | nil => exact absurd rfl h1
  | cons t rest =>
    refine ⟨(bboxFold (Mesh.mk (t :: rest)).allVertices (t.v0, t.v0)).1,
      (bboxFold (Mesh.mk (t :: rest)).allVertices (t.v0, t.v0)).2,
      rfl, fun i => ?_⟩
    have hv0 : t.v0 ∈ (Mesh.mk (t :: rest)).allVertices := by
      rw [Mesh.allVertices, List.flatMap_cons]
      exact List.mem_append_left _ (by simp [Triangle.vertexList])
    have hnum := noNaN_get (Mesh.mk (t :: rest)) h2
    have ha : (t.v0.get i).isNum = true := hnum t.v0 hv0 i
    have hl : ∀ x ∈ (Mesh.mk (t :: rest)).allVertices.map (fun v => v.get i),
        x.isNum = true := by
      intro x hx
      obtain ⟨v, hv, rfl⟩ := List.mem_map.mp hx
      exact hnum v hv i
    constructor
    · obtain ⟨hmem, _, _, hall⟩ :=
        foldl_fmin_spec ((Mesh.mk (t :: rest)).allVertices.map (fun v => v.get i))
          (t.v0.get i) ha hl
      rw [bboxFold_fst_get]
      constructor
      · rcases hmem with h | h
        · rw [h]
          exact List.mem_map.mpr ⟨t.v0, hv0, rfl⟩
        · exact h
      · intro v hv
        exact hall (v.get i) (List.mem_map.mpr ⟨v, hv, rfl⟩)
    · obtain ⟨hmem, _, _, hall⟩ :=
        foldl_fmax_spec ((Mesh.mk (t :: rest)).allVertices.map (fun v => v.get i))
          (t.v0.get i) ha hl
      rw [bboxFold_snd_get]
      constructor
      · rcases hmem with h | h
        · rw [h]
          exact List.mem_map.mpr ⟨t.v0, hv0, rfl⟩
        · exact h
      · intro v hv
        exact hall (v.get i) (List.mem_map.mpr ⟨v, hv, rfl⟩)

/-- Witness for C5: a two-triangle mesh with distinct componentwise
extremes. -/
theorem get_dimensions_minmax_c5_witness :
    let m : Mesh := ⟨[⟨defaultNormal, ⟨.val 0, .val 5, .val 1⟩,
      ⟨.val 2, .val 0, .val 3⟩, ⟨.val 1, .val 1, .val 0⟩⟩,
      ⟨defaultNormal, ⟨.val 7, .val 2, .val 2⟩,
      ⟨.val 1, .val 3, .val 6⟩, ⟨.val 2, .val 1, .val 1⟩⟩]⟩
    m.triangles ≠ [] ∧ m.noNaN = true ∧
    (∃ mn mx, m.get_dimensions? = some (mn, mx) ∧
      ∀ i : Fin 3,
        (mn.get i ∈ m.allVertices.map (fun v => v.get i) ∧
          ∀ v ∈ m.allVertices, (mn.get i).q ≤ (v.get i).q) ∧
        (mx.get i ∈ m.allVertices.map (fun v => v.get i) ∧
          ∀ v ∈ m.allVertices, (v.get i).q ≤ (mx.get i).q)) := by
  exact ⟨by decide, by decide,
    get_dimensions_minmax_c5 _ (by decide) (by decide)⟩

/-! ### Translation lemmas -/

theorem F32.fmin_fadd (a b d : F32) :
    (a.fadd d).fmin (b.fadd d) = (a.fmin b).fadd d := by
  cases a <;> cases b <;> cases d <;>
    simp [F32.fmin, F32.fadd, min_add_add_right]

theorem F32.fmax_fadd (a b d : F32) :
    (a.fadd d).fmax (b.fadd d) = (a.fmax b).fadd d := by
  cases a <;> cases b <;> cases d <;>
    simp [F32.fmax, F32.fadd, max_add_add_right]

theorem vmin_translate (a b d : Vec3) :
    (a.translate d).vmin (b.translate d) = (a.vmin b).translate d := by
  simp [Vec3.vmin, Vec3.translate, F32.fmin_fadd]

theorem vmax_translate (a b d : Vec3) :
    (a.translate d).vmax (b.translate d) = (a.vmax b).translate d := by
  simp [Vec3.vmax, Vec3.translate, F32.fmax_fadd]

theorem bboxFold_translate (vs : List Vec3) (init : Vec3 × Vec3) (d : Vec3) :
    bboxFold (vs.map (fun v => v.translate d))
        (init.1.translate d, init.2.translate d)
      = ((bboxFold vs init).1.translate d, (bboxFold vs init).2.translate d) := by
  induction vs generalizing init with
  | nil => rfl
  | cons v vs ih =>
    rw [List.map_cons, bboxFold_cons, bboxFold_cons]
    have := ih (init.1.vmin v, init.2.vmax v)
    rw [show ((init.1.translate d).vmin (v.translate d),
        (init.2.translate d).vmax (v.translate d))
        = ((init.1.vmin v).translate d, (init.2.vmax v).translate d) by
      rw [vmin_translate, vmax_translate]]
    exact this

theorem vertexList_translate (t : Triangle) (d : Vec3) :
    (t.translate d).vertexList = t.vertexList.map (fun v => v.translate d) := rfl

theorem flatMap_vertexList_translate (ts : List Triangle) (d : Vec3) :
    (ts.map (fun t => t.translate d)).flatMap Triangle.vertexList
      = (ts.flatMap Triangle.vertexList).map (fun v => v.translate d) := by
  induction ts with
  | nil => rfl
  | cons t ts ih =>
    rw [List.map_cons, List.flatMap_cons, List.flatMap_cons, List.map_append,
      ih, vertexList_translate]

theorem allVertices_translate (m : Mesh) (d : Vec3) :
    (m.translate d).allVertices = m.allVertices.map (fun v => v.translate d) :=
  flatMap_vertexList_translate m.triangles d

/-- C8:  The bounding-box computation is translation-correct: for
every mesh and every constant offset vector, the bounding box of the
shifted mesh is the original `(min, max)` pair with both corners shifted
by the same vector (and is defined exactly when the original is). -/
theorem get_dimensions_translate_c8 (m : Mesh) (d : Vec3) :
    (m.translate d).get_dimensions?
      = m.get_dimensions?.map (fun p => (p.1.translate d, p.2.translate d)) := by
  obtain ⟨ts⟩ := m
  cases ts with
  | nil => rfl
  | cons t rest =>
    show some (bboxFold (((Mesh.mk (t :: rest)).translate d)).allVertices
        ((t.translate d).v0, (t.translate d).v0))
      = some ((bboxFold (Mesh.mk (t :: rest)).allVertices (t.v0, t.v0)).1.translate d,
          (bboxFold (Mesh.mk (t :: rest)).allVertices (t.v0, t.v0)).2.translate d)
    rw [allVertices_translate]
    exact congrArg some
      (bboxFold_translate (Mesh.mk (t :: rest)).allVertices (t.v0, t.v0) d)

/-! ### The orchestration layer and the loader -/

theorem F32.fadd_comm (a b : F32) : a.fadd b = b.fadd a := by
  cases a <;> cases b <;> simp [F32.fadd, add_comm]

/-- C6:  Whenever the bounding box is available, the cutting height
used by `main` is exactly the arithmetic midpoint `(min_z + max_z) / 2`
of the bounding box's z-extremes, and `main` splits the mesh at exactly
that height; `Mesh::split` itself takes an arbitrary `z`. -/
theorem main_split_midpoint_c6 (m : Mesh) (mn mx : Vec3)
    (h : m.get_dimensions? = some (mn, mx)) :
    mainZSplit m = some ((mn.z.fadd mx.z).fdiv2) ∧
    mainSplit m = some (m.split ((mn.z.fadd mx.z).fdiv2)) := by
  have h1 : mainZSplit m = some ((mx.z.fadd mn.z).fdiv2) := by
    rw [mainZSplit, h]
    rfl
  rw [F32.fadd_comm mx.z mn.z] at h1
  refine ⟨h1, ?_⟩
  rw [mainSplit, h1]
  rfl

/-- Witness for C6: a one-triangle mesh with z-extremes 0 and 4 is split
at height 2. -/
theorem main_split_midpoint_c6_witness :
    let m : Mesh := ⟨[⟨defaultNormal, ⟨.val 0, .val 0, .val 0⟩,
      ⟨.val 1, .val 0, .val 1⟩, ⟨.val 0, .val 1, .val 4⟩⟩]⟩
    let mn : Vec3 := ⟨.val 0, .val 0, .val 0⟩
    let mx : Vec3 := ⟨.val 1, .val 1, .val 4⟩
    m.get_dimensions? = some (mn, mx) ∧
    (mainZSplit m = some ((mn.z.fadd mx.z).fdiv2) ∧
     mainSplit m = some (m.split ((mn.z.fadd mx.z).fdiv2))) := by
  exact ⟨by decide, main_split_midpoint_c6 _ _ _ (by decide)⟩

/-- C4:  The loader fails with `MalformedInput` exactly when the
underlying parse failed or the decoded vertex count is not a multiple of
3; it fails with `EmptyMesh` exactly when, those checks passed, grouping
the vertices in chunks of 3 yields zero triangles; in every remaining
case it returns a `Mesh`. -/
theorem load_errors_c4 (r : Except Unit IndexedMesh) :
    (Mesh.loadFromParse r = .error .malformedInput ↔
      r = .error () ∨ ∃ im, r = .ok im ∧ im.vertices.length % 3 ≠ 0) ∧
    (Mesh.loadFromParse r = .error .emptyMesh ↔
      ∃ im, r = .ok im ∧ im.vertices.length % 3 = 0 ∧ chunks3 im.vertices = []) ∧
    ((∃ m, Mesh.loadFromParse r = .ok m) ↔
      ∃ im, r = .ok im ∧ im.vertices.length % 3 = 0 ∧ chunks3 im.vertices ≠ []) := by
  cases r with
  | error e =>
    cases e
    refine ⟨⟨fun _ => Or.inl rfl, fun _ => rfl⟩, ?_, ?_⟩
    · constructor
      · intro h
        cases h
      · rintro ⟨im, him, -⟩
        cases him
    · constructor
      · rintro ⟨mm, hmm⟩
        cases hmm
      · rintro ⟨im, him, -⟩
        cases him
  | ok im =>
    by_cases h3 : im.vertices.length % 3 = 0
    · by_cases hc : chunks3 im.vertices = []
      · refine ⟨?_, ?_, ?_⟩
        · simp [Mesh.loadFromParse, h3, hc]
        · simp [Mesh.loadFromParse, h3, hc, List.isEmpty_iff]
        · simp [Mesh.loadFromParse, h3, hc, List.isEmpty_iff]
      · refine ⟨?_, ?_, ?_⟩
        · simp [Mesh.loadFromParse, h3, hc, List.isEmpty_iff]
        · simp [Mesh.loadFromParse, h3, hc, List.isEmpty_iff]
        · simp [Mesh.loadFromParse, h3, hc, List.isEmpty_iff]
    · refine ⟨?_, ?_, ?_⟩
      · simp [Mesh.loadFromParse, h3]
      · simp [Mesh.loadFromParse, h3]
      · simp [Mesh.loadFromParse, h3]

theorem chunks3_flatMap (ts : List Triangle) :
    chunks3 (ts.flatMap Triangle.vertexList)
      = ts.map (fun t => (t.v0, t.v1, t.v2)) := by
  induction ts with
  | nil => rfl
  | cons t ts ih =>
    rw [List.flatMap_cons, Triangle.vertexList]
    show chunks3 (t.v0 :: t.v1 :: t.v2 :: ts.flatMap Triangle.vertexList) = _
    rw [chunks3, ih, List.map_cons]

theorem length_flatMap_vertexList (ts : List Triangle) :
    (ts.flatMap Triangle.vertexList).length = 3 * ts.length := by
  induction ts with
  | nil => rfl
  | cons t ts ih =>
    rw [List.flatMap_cons, List.length_append, ih, List.length_cons]
    rw [show (Triangle.vertexList t).length = 3 from rfl]
    omega

theorem flatMap_vertexList_rebuild (ts : List Triangle) :
    ((ts.map (fun t =>
        Triangle.mk defaultNormal t.v0 t.v1 t.v2)).flatMap Triangle.vertexList)
      = ts.flatMap Triangle.vertexList := by
  induction ts with
  | nil => rfl
  | cons t ts ih =>
    rw [List.map_cons, List.flatMap_cons, List.flatMap_cons, ih]
    rfl

/-- Counterexample to C3 as stated: for the empty triangle list,
writing and reloading does not yield any mesh at all; the loader rejects
the resulting zero-triangle file with `EmptyMesh`. -/
theorem roundtrip_c3_counterexample :
    Mesh.loadFromParse (read_stl (write_stl ([] : List Triangle)))
      = .error .emptyMesh := rfl

/-- C3 (amended):  For every non-empty triangle list, writing it with
the mesh writer and reloading the result yields a mesh with the same
vertex count and the same vertex coordinates in the same order, while
every normal is replaced by the loader's placeholder `(0, 0, 1)`. -/
theorem roundtrip_c3_amended (ts : List Triangle) (h : ts ≠ []) :
    ∃ m : Mesh, Mesh.loadFromParse (read_stl (write_stl ts)) = .ok m ∧
      m.allVertices = ts.flatMap Triangle.vertexList ∧
      m.triangles.length = ts.length ∧
      m.triangles.map Triangle.normal
        = List.replicate ts.length defaultNormal := by
  have hL : (ts.flatMap Triangle.vertexList).length % 3 = 0 := by
    rw [length_flatMap_vertexList]
    omega
  have hload : Mesh.loadFromParse (read_stl (write_stl ts))
      = .ok ⟨ts.map (fun t => Triangle.mk defaultNormal t.v0 t.v1 t.v2)⟩ := by
    show Mesh.loadFromParse (.ok ⟨ts.flatMap Triangle.vertexList⟩) = _
    simp only [Mesh.loadFromParse, hL, chunks3_flatMap, List.map_map]
    simp [List.isEmpty_iff, h, Function.comp_def]
  refine ⟨_, hload, ?_, ?_, ?_⟩
  · show ((ts.map (fun t =>
        Triangle.mk defaultNormal t.v0 t.v1 t.v2)).flatMap Triangle.vertexList)
      = ts.flatMap Triangle.vertexList
    exact flatMap_vertexList_rebuild ts
  · simp
  · simp [List.map_map, Function.comp_def, List.map_const']

/-- Witness for the amended C3: a single triangle round-trips with its
coordinates intact and its normal replaced. -/
theorem roundtrip_c3_amended_witness :
    let ts : List Triangle := [⟨⟨.val 1, .val 2, .val 3⟩,
      ⟨.val 0, .val 0, .val 0⟩, ⟨.val 1, .val 0, .val 2⟩,
      ⟨.val 0, .val 1, .val 5⟩⟩]
    ts ≠ [] ∧
    (∃ m : Mesh, Mesh.loadFromParse (read_stl (write_stl ts)) = .ok m ∧
      m.allVertices = ts.flatMap Triangle.vertexList ∧
      m.triangles.length = ts.length ∧
      m.triangles.map Triangle.normal
        = List.replicate ts.length defaultNormal) := by
  exact ⟨by decide, roundtrip_c3_amended _ (by decide)⟩
